import Mathlib

/-!
Shallow embedding of the selective-disclosure composition engine in
`tramp/protected_strings.py`.

Python string methods used by the source (`str.title`, `str.isidentifier`,
`str.strip`, `str.split`, `str.partition`, `str.join`) are modelled at the
character-list level for the ASCII fragment the engine manipulates.
-/

/-- Model of CPython `str.title` (ASCII fragment): walk the characters keeping a
flag saying whether the previous character was cased (a letter); an uncased
predecessor makes the current character uppercase, a cased one makes it
lowercase. -/
def titleAux : List Char → Bool → List Char
  | [], _ => []
  | c :: cs, prevCased => (if prevCased then c.toLower else c.toUpper) :: titleAux cs c.isAlpha

/-- Python `s.title()` starts with no cased predecessor. -/
def pyTitle (s : String) : String := String.mk (titleAux s.data false)

/-- Model of Python `str.isidentifier` for ASCII: nonempty, first character a
letter or underscore, remaining characters letters, digits or underscores. -/
def pyIsIdentifier (s : String) : Bool :=
  match s.data with
  | [] => false
  | c :: cs => (c.isAlpha || c = '_') && cs.all (fun d => d.isAlphanum || d = '_')

/-- Model of Python `str.strip()` (ASCII whitespace). -/
def pyStrip (s : String) : String :=
  String.mk (((s.data.dropWhile Char.isWhitespace).reverse.dropWhile Char.isWhitespace).reverse)

/-- Split a character list on commas; like Python `str.split(",")`, the empty
string yields one empty field and separators are never dropped. -/
def splitCommaAux : List Char → List Char → List (List Char)
  | [], acc => [acc.reverse]
  | c :: cs, acc => if c = ',' then acc.reverse :: splitCommaAux cs [] else splitCommaAux cs (c :: acc)

/-- Python `s.split(",")`. -/
def pySplitComma (s : String) : List String :=
  (splitCommaAux s.data []).map String.mk

/-- Locate the first `'$'`: returns the characters before and after it, or
nothing when no dollar occurs. -/
def partitionDollarAux : List Char → Option (List Char × List Char)
  | [] => Option.none
  | c :: cs =>
    if c = '$' then some ([], cs)
    else
      match partitionDollarAux cs with
      | some (l, r) => some (c :: l, r)
      | Option.none => Option.none

/-- Python `s.partition("$")`: `(before, separator, after)`, with the separator
empty when no `'$'` occurs (in which case `before` is the whole string). -/
def pyPartitionDollar (s : String) : String × String × String :=
  match partitionDollarAux s.data with
  | some (l, r) => (String.mk l, "$", String.mk r)
  | Option.none => (s, "", "")

/-- Python `"".join(pieces)`. -/
def joinStrings : List String → String
  | [] => ""
  | s :: rest => s ++ joinStrings rest

/-- `ProtectedString`: a leaf carrying the protected value, an optional reveal
name (empty means unnamed) and the `hide_name` display flag. -/
structure ProtectedString where
  value : String
  name : String
  hide_name : Bool
deriving DecidableEq

/-- `ProtectedString.__repr__`: the default placeholder.  A nonempty, unhidden
name is title-cased into the placeholder; otherwise the placeholder is bare. -/
def ProtectedString.reprS (p : ProtectedString) : String :=
  if p.name ≠ "" ∧ p.hide_name = false then "<Redacted " ++ pyTitle p.name ++ ">"
  else "<Redacted>"

/-- A part of a builder: plain text or a protected segment. -/
inductive StrPart where
  | plain (s : String)
  | seg (p : ProtectedString)
deriving DecidableEq

/-- The `allowed` argument of `render`/`_redact`: Python `None`, a callable
predicate, or a name container tested with `in`. -/
inductive Allowed where
  | absent
  | pred (f : ProtectedString → Bool)
  | names (l : List String)

/-- `ProtectedStringBuilder._redact`: a callable policy accepting the segment, or
a container policy containing its name, reveals the raw value; otherwise the
redaction marker when supplied, else the default placeholder. -/
def redactPart (string : ProtectedString) (redact_with : Option String) (allowed : Allowed) : String :=
  match allowed with
  | Allowed.pred f =>
    if f string then string.value else Option.getD redact_with string.reprS
  | Allowed.names l =>
    if string.name ∈ l then string.value else Option.getD redact_with string.reprS
  | Allowed.absent => Option.getD redact_with string.reprS

/-- `ProtectedStringBuilder`: an ordered sequence of parts. -/
structure ProtectedStringBuilder where
  strings : List StrPart
deriving DecidableEq

/-- One step of `ProtectedStringBuilder.render`: a protected segment goes
through `_redact`, plain text is emitted verbatim. -/
def resolvePart (part : StrPart) (redact_with : Option String) (allowed : Allowed) : String :=
  match part with
  | StrPart.seg p => redactPart p redact_with allowed
  | StrPart.plain s => s

/-- `ProtectedStringBuilder.render`: join the independently resolved parts in
original order. -/
def ProtectedStringBuilder.render (b : ProtectedStringBuilder) (redact_with : Option String) (allowed : Allowed) : String :=
  joinStrings (b.strings.map (fun part => resolvePart part redact_with allowed))

/-- `ProtectedStringBuilder.value` property: the unredacted concatenation of
every part's true value, built by a left fold as in the source. -/
def ProtectedStringBuilder.plainValue (b : ProtectedStringBuilder) : String :=
  b.strings.foldl (fun result item =>
    match item with
    | StrPart.seg p => result ++ p.value
    | StrPart.plain s => result ++ s) ""

/-- `ProtectedStringBuilder.__repr__` scan: the repr of the first protected
segment, or the bare placeholder when there is none. -/
def firstSegRepr : List StrPart → String
  | [] => "<Redacted>"
  | StrPart.seg p :: _ => p.reprS
  | StrPart.plain _ :: rest => firstSegRepr rest

/-- `ProtectedStringBuilder.__repr__`. -/
def ProtectedStringBuilder.reprS (b : ProtectedStringBuilder) : String := firstSegRepr b.strings

/-- `ProtectedString.join`: build a builder from the parts and render it. -/
def ProtectedString.join (parts : List StrPart) (redact_with : Option String) (allowed : Allowed) : String :=
  (ProtectedStringBuilder.mk parts).render redact_with allowed

/-- The right operand of the builder's `+`/`+=`: another builder, or a single
part (a `ProtectedString` or plain text). -/
inductive Operand where
  | part (p : StrPart)
  | builder (b : ProtectedStringBuilder)

/-- The part sequence an operand contributes. -/
def Operand.parts : Operand → List StrPart
  | Operand.part p => [p]
  | Operand.builder b => b.strings

/-- `ProtectedStringBuilder.add` with no name: append the part as-is. -/
def ProtectedStringBuilder.addPart (b : ProtectedStringBuilder) (item : StrPart) : ProtectedStringBuilder :=
  ProtectedStringBuilder.mk (b.strings ++ [item])

/-- `ProtectedStringBuilder.__add__`: a fresh builder holding both operands'
parts; a builder operand contributes its whole sequence, any other operand one
part. -/
def ProtectedStringBuilder.addOp (b : ProtectedStringBuilder) (other : Operand) : ProtectedStringBuilder :=
  match other with
  | Operand.builder o => ProtectedStringBuilder.mk (b.strings ++ o.strings)
  | Operand.part p => ProtectedStringBuilder.mk (b.strings ++ [p])

/-- `ProtectedStringBuilder.__iadd__`: the receiver's part list after the
in-place extension (the source mutates `self.strings` and returns `self`). -/
def ProtectedStringBuilder.iaddOp (b : ProtectedStringBuilder) (other : Operand) : ProtectedStringBuilder :=
  match other with
  | Operand.builder o => ProtectedStringBuilder.mk (b.strings ++ o.strings)
  | Operand.part p => b.addPart p

/-- The token filtering of `__format__`:
`set(name.strip() for name in allowed_names.split(",") if name.strip())`. -/
def filterNames (allowed_names : String) : List String :=
  (((pySplitComma allowed_names).map pyStrip).filter (fun n => n ≠ "")).dedup

/-- The parse failures `__format__` raises (all `FormatError` in the source,
distinguished by their message). -/
inductive FormatError where
  | requiresAllowedNames
  | noValidNames
  | invalidIdentifiers (names : List String)
deriving DecidableEq

/-- The human-readable message each failure carries. -/
def FormatError.message : FormatError → String
  | FormatError.requiresAllowedNames => "Format spec $ requires allowed names."
  | FormatError.noValidNames => "No valid names provided after filtering."
  | FormatError.invalidIdentifiers names =>
    "Invalid identifier(s) in allowed names: " ++ String.intercalate ", " names

/-- `ProtectedStringBuilder.__format__`: partition the spec on `'$'`, validate
the allow-list, then render with `redact_with or None` and either the
membership policy or the initial reject-everything policy. -/
def ProtectedStringBuilder.formatOp (b : ProtectedStringBuilder) (format_spec : String) : Except FormatError String :=
  if (pyPartitionDollar format_spec).2.1 ≠ "" ∧ (pyPartitionDollar format_spec).2.2 = "" then
    Except.error FormatError.requiresAllowedNames
  else if filterNames (pyPartitionDollar format_spec).2.2 = [] ∧ (pyPartitionDollar format_spec).2.2 ≠ "" then
    Except.error FormatError.noValidNames
  else if (filterNames (pyPartitionDollar format_spec).2.2).filter (fun n => !(pyIsIdentifier n)) ≠ [] then
    Except.error (FormatError.invalidIdentifiers
      ((filterNames (pyPartitionDollar format_spec).2.2).filter (fun n => !(pyIsIdentifier n))))
  else
    Except.ok (b.render
      (if (pyPartitionDollar format_spec).1 = "" then Option.none else some (pyPartitionDollar format_spec).1)
      (if (pyPartitionDollar format_spec).2.2 ≠ "" then
        Allowed.pred (fun s => decide (s.name ∈ filterNames (pyPartitionDollar format_spec).2.2))
      else Allowed.pred (fun _ => false)))


theorem joinStrings_cons (s : String) (l : List String) :
    joinStrings (s :: l) = s ++ joinStrings l := rfl

theorem render_nil (m : Option String) (a : Allowed) :
    ProtectedStringBuilder.render ⟨[]⟩ m a = "" := rfl

theorem render_cons (x : StrPart) (rest : List StrPart) (m : Option String) (a : Allowed) :
    ProtectedStringBuilder.render ⟨x :: rest⟩ m a =
      resolvePart x m a ++ ProtectedStringBuilder.render ⟨rest⟩ m a := rfl

theorem render_singleton (x : StrPart) (m : Option String) (a : Allowed) :
    ProtectedStringBuilder.render ⟨[x]⟩ m a = resolvePart x m a := by
  rw [render_cons, render_nil, String.append_empty]

theorem titleAux_length (l : List Char) (b : Bool) : (titleAux l b).length = l.length := by
  induction l generalizing b with
  | nil => rfl
  | cons c cs ih => simp [titleAux, ih]

theorem titleAux_head (c : Char) (cs : List Char) (b : Bool) :
    (titleAux (c :: cs) b).head? = some (if b then c.toLower else c.toUpper) := rfl

theorem titleAux_get_succ (l : List Char) (b : Bool) (i : Nat) (d c : Char)
    (hd : l[i]? = some d) (hc : l[i + 1]? = some c) :
    (titleAux l b)[i + 1]? = some (if d.isAlpha then c.toLower else c.toUpper) := by
  induction l generalizing b i with
  | nil => simp at hd
  | cons x xs ih =>
    cases i with
    | zero =>
      simp only [List.getElem?_cons_zero, Option.some.injEq] at hd
      subst hd
      cases xs with
      | nil => simp at hc
      | cons y ys =>
        simp only [List.getElem?_cons_succ, List.getElem?_cons_zero, Option.some.injEq] at hc
        subst hc
        simp [titleAux]
    | succ j =>
      simp only [List.getElem?_cons_succ] at hd hc
      simp only [titleAux, List.getElem?_cons_succ]
      exact ih x.isAlpha j hd hc

/-- C1: the claim predicts that only the leading character of the name is
uppercased and all remaining characters are left unchanged, so a segment named
"MyName" would get placeholder "<Redacted MyName>".  The code title-cases with
Python str.title, which lowercases the letter after a letter: the actual
placeholder is "<Redacted Myname>". -/
theorem C1_counterexample :
    ProtectedString.reprS ⟨"secret", "MyName", false⟩ = "<Redacted Myname>" ∧
    ProtectedString.reprS ⟨"secret", "MyName", false⟩ ≠ "<Redacted MyName>" := by
  constructor
  · rfl
  · decide

/-- C1 (amended): for every ProtectedSegment with a non-empty name and
hide_name false, default_placeholder() is "<Redacted {N}>" where N is the name
title-cased in Python str.title fashion: the result has the same length, its
first character is the uppercased first character of the name, and every later
character is the lowercased original when the preceding original character is a
letter and the uppercased original otherwise (so "bar" gives "Bar", "my_name"
gives "My_Name", "MyName" gives "Myname", "FOO" gives "Foo"). -/
theorem C1_title_case_placeholder (p : ProtectedString)
    (h1 : p.name ≠ "") (h2 : p.hide_name = false) :
    p.reprS = "<Redacted " ++ pyTitle p.name ++ ">" ∧
    (pyTitle p.name).data.length = p.name.data.length ∧
    (∀ c cs, p.name.data = c :: cs → (pyTitle p.name).data.head? = some c.toUpper) ∧
    (∀ i d c, p.name.data[i]? = some d → p.name.data[i + 1]? = some c →
      (pyTitle p.name).data[i + 1]? = some (if d.isAlpha then c.toLower else c.toUpper)) := by
  refine ⟨?_, ?_, ?_, ?_⟩
  · simp [ProtectedString.reprS, h1, h2]
  · exact titleAux_length _ _
  · intro c cs hcc
    show (titleAux p.name.data false).head? = _
    rw [hcc, titleAux_head]
    rfl
  · intro i d c hd hc
    exact titleAux_get_succ p.name.data false i d c hd hc

theorem C1_title_case_placeholder_witness :
    ProtectedString.reprS ⟨"x", "my_name", false⟩ = "<Redacted " ++ pyTitle "my_name" ++ ">" ∧
    pyTitle "my_name" = "My_Name" :=
  ⟨(C1_title_case_placeholder ⟨"x", "my_name", false⟩ (by decide) rfl).1, by decide⟩

theorem foldl_value_eq (l : List StrPart) (init : String) :
    l.foldl (fun result item =>
      match item with
      | StrPart.seg p => result ++ p.value
      | StrPart.plain s => result ++ s) init =
    init ++ joinStrings (l.map (fun item =>
      match item with
      | StrPart.seg p => p.value
      | StrPart.plain s => s)) := by
  induction l generalizing init with
  | nil => simp [joinStrings, String.append_empty]
  | cons x xs ih =>
    cases x with
    | plain s => simp [joinStrings, ih, String.append_assoc]
    | seg p => simp [joinStrings, ih, String.append_assoc]

theorem render_allow_all_eq_plainValue (l : List StrPart) (m : Option String) :
    ProtectedStringBuilder.render ⟨l⟩ m (Allowed.pred (fun _ => true)) =
      ProtectedStringBuilder.plainValue ⟨l⟩ := by
  unfold ProtectedStringBuilder.render ProtectedStringBuilder.plainValue
  rw [foldl_value_eq, String.empty_append]
  have hfun : (fun part => resolvePart part m (Allowed.pred (fun _ => true))) =
      (fun item =>
        match item with
        | StrPart.seg p => p.value
        | StrPart.plain s => s) := by
    funext x
    cases x with
    | plain s => rfl
    | seg p => simp [resolvePart, redactPart]
  rw [hfun]

/-- C2: with a total allow-policy, render resolves each part independently in
original order and is a total function (it never fails): the empty composite
renders to "", a leading part contributes a prefix independent of the rest, a
plain-text part is emitted verbatim, an allowed segment is emitted as its raw
value even when a marker is supplied, and a rejected segment is emitted as the
marker when one is supplied and as its default placeholder otherwise. -/
theorem C2_render_resolution (m : Option String) (f : ProtectedString → Bool) :
    (∀ (x : StrPart) (rest : List StrPart),
      ProtectedStringBuilder.render ⟨x :: rest⟩ m (Allowed.pred f) =
        ProtectedStringBuilder.render ⟨[x]⟩ m (Allowed.pred f) ++
          ProtectedStringBuilder.render ⟨rest⟩ m (Allowed.pred f)) ∧
    ProtectedStringBuilder.render ⟨[]⟩ m (Allowed.pred f) = "" ∧
    (∀ s, ProtectedStringBuilder.render ⟨[StrPart.plain s]⟩ m (Allowed.pred f) = s) ∧
    (∀ p, f p = true →
      ProtectedStringBuilder.render ⟨[StrPart.seg p]⟩ m (Allowed.pred f) = p.value) ∧
    (∀ p mrk, f p = false → m = some mrk →
      ProtectedStringBuilder.render ⟨[StrPart.seg p]⟩ m (Allowed.pred f) = mrk) ∧
    (∀ p, f p = false → m = Option.none →
      ProtectedStringBuilder.render ⟨[StrPart.seg p]⟩ m (Allowed.pred f) = p.reprS) := by
  refine ⟨?_, rfl, ?_, ?_, ?_, ?_⟩
  · intro x rest
    rw [render_cons, render_singleton]
  · intro s
    rw [render_singleton]
    rfl
  · intro p hp
    rw [render_singleton]
    simp [resolvePart, redactPart, hp]
  · intro p mrk hp hm
    rw [render_singleton]
    simp [resolvePart, redactPart, hp, hm]
  · intro p hp hm
    rw [render_singleton]
    simp [resolvePart, redactPart, hp, hm]

theorem C2_render_resolution_witness :
    ProtectedStringBuilder.render ⟨[StrPart.seg ⟨"v", "n", false⟩]⟩ (some "***")
      (Allowed.pred (fun _ => true)) = "v" :=
  (C2_render_resolution (some "***") (fun _ => true)).2.2.2.1 ⟨"v", "n", false⟩ rfl

/-- C5: the builder's + returns a fresh composite whose part list is the
receiver's parts followed by the operand's parts, leaving both operands' part
lists untouched, while += leaves the receiver holding its old parts followed by
the appended parts, growing its part count by exactly 1 for a single part and
by the operand's part count for a builder. -/
theorem C5_concat_and_extend (a : ProtectedStringBuilder) (other : Operand) :
    (a.addOp other).strings = a.strings ++ Operand.parts other ∧
    (a.iaddOp other).strings = a.strings ++ Operand.parts other ∧
    (a.addOp other).strings.length = a.strings.length + (Operand.parts other).length ∧
    (a.iaddOp other).strings.length = a.strings.length +
      (match other with
       | Operand.part _ => 1
       | Operand.builder o => o.strings.length) := by
  cases other with
  | part p =>
    simp [ProtectedStringBuilder.addOp, ProtectedStringBuilder.iaddOp,
      ProtectedStringBuilder.addPart, Operand.parts]
  | builder o =>
    simp [ProtectedStringBuilder.addOp, ProtectedStringBuilder.iaddOp,
      ProtectedStringBuilder.addPart, Operand.parts]

/-- C6: rendering with an allow-policy that accepts every segment equals the
unredacted plain value, with or without a marker; a singleton composite around
a segment renders to that segment's raw value, and an empty composite renders
to the empty string under any policy. -/
theorem C6_allow_all_roundtrip (b : ProtectedStringBuilder) (m : Option String) :
    b.render m (Allowed.pred (fun _ => true)) = b.plainValue ∧
    (∀ p : ProtectedString,
      ProtectedStringBuilder.render ⟨[StrPart.seg p]⟩ m (Allowed.pred (fun _ => true)) = p.value) ∧
    (∀ a : Allowed, ProtectedStringBuilder.render ⟨[]⟩ m a = "") := by
  refine ⟨?_, ?_, fun _ => rfl⟩
  · cases b with
    | mk l => exact render_allow_all_eq_plainValue l m
  · intro p
    rw [render_singleton]
    simp [resolvePart, redactPart]

/-- C7: the static join of a part sequence with a marker and an allow-policy
equals building a composite from those parts and rendering it; in particular
segments ("FOO" named foo) and ("BAR" named bar) with plain "other", joined
with allow-set containing foo and marker "***", yield "FOO***other". -/
theorem C7_join_equiv (parts : List StrPart) (m : Option String) (a : Allowed) :
    ProtectedString.join parts m a = (ProtectedStringBuilder.mk parts).render m a ∧
    ProtectedString.join
      [StrPart.seg ⟨"FOO", "foo", false⟩, StrPart.seg ⟨"BAR", "bar", false⟩, StrPart.plain "other"]
      (some "***") (Allowed.names ["foo"]) = "FOO***other" :=
  ⟨rfl, rfl⟩

/-- C8: a segment with hide_name true or with an empty name has default
placeholder exactly "<Redacted>", yet a segment whose name is in the
allow-policy's name set is still revealed as its raw value regardless of
hide_name, both directly through _redact and through render. -/
theorem C8_hide_name_placeholder_and_reveal (p : ProtectedString) (l : List String)
    (m : Option String) :
    ((p.hide_name = true ∨ p.name = "") → p.reprS = "<Redacted>") ∧
    (p.name ∈ l → redactPart p m (Allowed.names l) = p.value) ∧
    (p.name ∈ l →
      ProtectedStringBuilder.render ⟨[StrPart.seg p]⟩ m (Allowed.names l) = p.value) := by
  refine ⟨?_, ?_, ?_⟩
  · intro h
    unfold ProtectedString.reprS
    rcases h with h | h
    · simp [h]
    · simp [h]
  · intro h
    simp [redactPart, h]
  · intro h
    rw [render_singleton]
    simp [resolvePart, redactPart, h]

theorem C8_hide_name_witness :
    ProtectedString.reprS ⟨"v", "n", true⟩ = "<Redacted>" ∧
    ProtectedStringBuilder.render ⟨[StrPart.seg ⟨"v", "n", true⟩]⟩ (some "***")
      (Allowed.names ["n"]) = "v" :=
  ⟨(C8_hide_name_placeholder_and_reveal ⟨"v", "n", true⟩ ["n"] (some "***")).1 (Or.inl rfl),
   (C8_hide_name_placeholder_and_reveal ⟨"v", "n", true⟩ ["n"] (some "***")).2.2 (by decide)⟩

theorem firstSegRepr_all_plain (l : List StrPart)
    (h : ∀ part ∈ l, ∀ p : ProtectedString, part ≠ StrPart.seg p) :
    firstSegRepr l = "<Redacted>" := by
  induction l with
  | nil => rfl
  | cons x xs ih =>
    cases x with
    | plain s =>
      show firstSegRepr xs = _
      exact ih (fun part hp => h part (List.mem_cons_of_mem _ hp))
    | seg p => exact absurd rfl (h (StrPart.seg p) (List.mem_cons_self _ _) p)

theorem firstSegRepr_first_seg (pre post : List StrPart) (p : ProtectedString)
    (h : ∀ q ∈ pre, ∀ x : ProtectedString, q ≠ StrPart.seg x) :
    firstSegRepr (pre ++ StrPart.seg p :: post) = p.reprS := by
  induction pre with
  | nil => rfl
  | cons y ys ih =>
    cases y with
    | plain s =>
      show firstSegRepr (ys ++ StrPart.seg p :: post) = _
      exact ih (fun q hq => h q (List.mem_cons_of_mem _ hq))
    | seg q => exact absurd rfl (h (StrPart.seg q) (List.mem_cons_self _ _) q)

/-- C10: the builder's own default placeholder (its repr) is the default
placeholder of its first protected-segment part, or exactly "<Redacted>" when
no part is a protected segment; the plain-text parts before the first segment
and everything after it contribute nothing. -/
theorem C10_builder_repr (b : ProtectedStringBuilder) :
    ((∀ part ∈ b.strings, ∀ p : ProtectedString, part ≠ StrPart.seg p) →
      b.reprS = "<Redacted>") ∧
    (∀ (pre post : List StrPart) (p : ProtectedString),
      b.strings = pre ++ StrPart.seg p :: post →
      (∀ q ∈ pre, ∀ x : ProtectedString, q ≠ StrPart.seg x) →
      b.reprS = p.reprS) := by
  constructor
  · intro h
    exact firstSegRepr_all_plain b.strings h
  · intro pre post p hsplit hpre
    unfold ProtectedStringBuilder.reprS
    rw [hsplit]
    exact firstSegRepr_first_seg pre post p hpre

theorem C10_builder_repr_witness :
    ProtectedStringBuilder.reprS
        ⟨[StrPart.plain "x", StrPart.seg ⟨"v", "nm", false⟩, StrPart.seg ⟨"w", "zz", false⟩]⟩ =
      ProtectedString.reprS ⟨"v", "nm", false⟩ :=
  (C10_builder_repr ⟨[StrPart.plain "x", StrPart.seg ⟨"v", "nm", false⟩, StrPart.seg ⟨"w", "zz", false⟩]⟩).2
    [StrPart.plain "x"] [StrPart.seg ⟨"w", "zz", false⟩] ⟨"v", "nm", false⟩ rfl
    (by
      intro q hq x
      rcases List.mem_singleton.mp hq with rfl
      exact fun hcon => StrPart.noConfusion hcon)

theorem filterNames_empty : filterNames "" = [] := rfl

theorem invalid_filter_nil_iff (tokens : List String) :
    tokens.filter (fun n => !(pyIsIdentifier n)) = [] ↔
      ∀ t ∈ tokens, pyIsIdentifier t = true := by
  rw [List.filter_eq_nil_iff]
  constructor
  · intro h t ht
    have := h t ht
    simpa using this
  · intro h t ht
    simp [h t ht]

theorem pyPartitionDollar_no_sep (s : String) (h : (pyPartitionDollar s).2.1 = "") :
    (pyPartitionDollar s).1 = s ∧ (pyPartitionDollar s).2.2 = "" := by
  unfold pyPartitionDollar at h ⊢
  cases haux : partitionDollarAux s.data with
  | none => simp [haux]
  | some pr =>
    obtain ⟨l, r⟩ := pr
    rw [haux] at h
    exact absurd (show ("$" : String) = "" from h) (by decide)

theorem formatOp_error1_iff (b : ProtectedStringBuilder) (s : String) :
    b.formatOp s = Except.error FormatError.requiresAllowedNames ↔
      (pyPartitionDollar s).2.1 ≠ "" ∧ (pyPartitionDollar s).2.2 = "" := by
  unfold ProtectedStringBuilder.formatOp
  split_ifs with h1 h2 h3
  · simp [h1]
  · obtain ⟨h2a, h2b⟩ := h2
    simp only [Except.error.injEq]
    constructor
    · intro hcon
      exact absurd hcon (by decide)
    · intro hcon
      exact absurd hcon h1
  · simp only [Except.error.injEq]
    constructor
    · intro hcon
      exact FormatError.noConfusion hcon
    · intro hcon
      exact absurd hcon h1
  · constructor
    · intro hcon
      exact absurd hcon (by simp)
    · intro hcon
      exact absurd hcon h1

theorem formatOp_error2_iff (b : ProtectedStringBuilder) (s : String) :
    b.formatOp s = Except.error FormatError.noValidNames ↔
      (pyPartitionDollar s).2.2 ≠ "" ∧ filterNames (pyPartitionDollar s).2.2 = [] := by
  unfold ProtectedStringBuilder.formatOp
  split_ifs with h1 h2 h3
  · obtain ⟨h1a, h1b⟩ := h1
    simp [h1b]
  · obtain ⟨h2a, h2b⟩ := h2
    simp [h2a, h2b]
  · simp only [Except.error.injEq]
    constructor
    · intro hcon
      exact FormatError.noConfusion hcon
    · intro hcon
      exact absurd (And.intro hcon.2 hcon.1) h2
  · constructor
    · intro hcon
      exact absurd hcon (by simp)
    · intro hcon
      exact absurd (And.intro hcon.2 hcon.1) h2

theorem formatOp_error3_iff (b : ProtectedStringBuilder) (s : String) (l : List String) :
    b.formatOp s = Except.error (FormatError.invalidIdentifiers l) ↔
      ((filterNames (pyPartitionDollar s).2.2).filter (fun n => !(pyIsIdentifier n)) ≠ [] ∧
        l = (filterNames (pyPartitionDollar s).2.2).filter (fun n => !(pyIsIdentifier n))) := by
  unfold ProtectedStringBuilder.formatOp
  split_ifs with h1 h2 h3
  · obtain ⟨h1a, h1b⟩ := h1
    rw [h1b, filterNames_empty]
    simp
  · obtain ⟨h2a, h2b⟩ := h2
    rw [h2a]
    simp
  · simp only [Except.error.injEq, FormatError.invalidIdentifiers.injEq]
    constructor
    · intro hcon
      exact ⟨h3, hcon.symm⟩
    · intro hcon
      exact hcon.2.symm
  · rw [not_not] at h3
    constructor
    · intro hcon
      exact absurd hcon (by simp)
    · intro hcon
      exact absurd h3 hcon.1

theorem formatOp_ok_iff (b : ProtectedStringBuilder) (s : String) :
    (∃ r, b.formatOp s = Except.ok r) ↔
      ¬((pyPartitionDollar s).2.1 ≠ "" ∧ (pyPartitionDollar s).2.2 = "") ∧
      ¬((pyPartitionDollar s).2.2 ≠ "" ∧ filterNames (pyPartitionDollar s).2.2 = []) ∧
      (∀ t ∈ filterNames (pyPartitionDollar s).2.2, pyIsIdentifier t = true) := by
  unfold ProtectedStringBuilder.formatOp
  by_cases h1 : (pyPartitionDollar s).2.1 ≠ "" ∧ (pyPartitionDollar s).2.2 = ""
  · rw [if_pos h1]
    constructor
    · rintro ⟨r, hr⟩
      simp at hr
    · intro hcon
      exact absurd h1 hcon.1
  · rw [if_neg h1]
    by_cases h2 : filterNames (pyPartitionDollar s).2.2 = [] ∧ (pyPartitionDollar s).2.2 ≠ ""
    · rw [if_pos h2]
      constructor
      · rintro ⟨r, hr⟩
        simp at hr
      · intro hcon
        exact absurd (And.intro h2.2 h2.1) hcon.2.1
    · rw [if_neg h2]
      by_cases h3 : (filterNames (pyPartitionDollar s).2.2).filter (fun n => !(pyIsIdentifier n)) ≠ []
      · rw [if_pos h3]
        constructor
        · rintro ⟨r, hr⟩
          simp at hr
        · intro hcon
          exact (h3 ((invalid_filter_nil_iff _).mpr hcon.2.2)).elim
      · rw [if_neg h3]
        rw [not_not] at h3
        constructor
        · intro _
          exact ⟨h1, fun hx => h2 (And.intro hx.2 hx.1), (invalid_filter_nil_iff _).mp h3⟩
        · intro _
          exact ⟨_, rfl⟩

theorem formatOp_ok_value (b : ProtectedStringBuilder) (s r : String)
    (h : b.formatOp s = Except.ok r) :
    r = b.render
      (if (pyPartitionDollar s).1 = "" then Option.none else some (pyPartitionDollar s).1)
      (if (pyPartitionDollar s).2.2 ≠ "" then
        Allowed.pred (fun seg => decide (seg.name ∈ filterNames (pyPartitionDollar s).2.2))
      else Allowed.pred (fun _ => false)) := by
  unfold ProtectedStringBuilder.formatOp at h
  by_cases h1 : (pyPartitionDollar s).2.1 ≠ "" ∧ (pyPartitionDollar s).2.2 = ""
  · rw [if_pos h1] at h
    exact absurd h (by simp)
  · rw [if_neg h1] at h
    by_cases h2 : filterNames (pyPartitionDollar s).2.2 = [] ∧ (pyPartitionDollar s).2.2 ≠ ""
    · rw [if_pos h2] at h
      exact absurd h (by simp)
    · rw [if_neg h2] at h
      by_cases h3 : (filterNames (pyPartitionDollar s).2.2).filter (fun n => !(pyIsIdentifier n)) ≠ []
      · rw [if_pos h3] at h
        exact absurd h (by simp)
      · rw [if_neg h3] at h
        exact (Except.ok.inj h).symm

theorem invalid_message_head (l : List String) :
    (FormatError.message (FormatError.invalidIdentifiers l)).data.head? = some 'I' := by
  show (("Invalid identifier(s) in allowed names: " : String) ++
    String.intercalate ", " l).data.head? = some 'I'
  rw [String.data_append]
  rfl

theorem invalid_filter_ne_nil_iff (tokens : List String) :
    tokens.filter (fun n => !(pyIsIdentifier n)) ≠ [] ↔
      ∃ t ∈ tokens, pyIsIdentifier t = false := by
  rw [Ne, invalid_filter_nil_iff]
  push_neg
  constructor
  · rintro ⟨t, ht, hne⟩
    exact ⟨t, ht, by simpa using hne⟩
  · rintro ⟨t, ht, hf⟩
    exact ⟨t, ht, by simp [hf]⟩

/-- C3: parsing a format-spec string fails with a catchable error in exactly
three cases: the requires-allowed-names error exactly when a dollar is present
with nothing after it; the no-valid-names error exactly when the text after the
dollar filters down to zero tokens; the invalid-identifiers error exactly when
some surviving token is not a bare identifier, and then the carried list is the
full list of offending tokens, not just the first; in every other case parsing
succeeds.  The three error classes carry pairwise distinct human-readable
messages. -/
theorem C3_parse_error_cases (b : ProtectedStringBuilder) (s : String) :
    (b.formatOp s = Except.error FormatError.requiresAllowedNames ↔
      (pyPartitionDollar s).2.1 ≠ "" ∧ (pyPartitionDollar s).2.2 = "") ∧
    (b.formatOp s = Except.error FormatError.noValidNames ↔
      (pyPartitionDollar s).2.2 ≠ "" ∧ filterNames (pyPartitionDollar s).2.2 = []) ∧
    (∀ l, b.formatOp s = Except.error (FormatError.invalidIdentifiers l) ↔
      ((∃ t ∈ filterNames (pyPartitionDollar s).2.2, pyIsIdentifier t = false) ∧
        l = (filterNames (pyPartitionDollar s).2.2).filter (fun n => !(pyIsIdentifier n)))) ∧
    ((∃ r, b.formatOp s = Except.ok r) ↔
      ¬((pyPartitionDollar s).2.1 ≠ "" ∧ (pyPartitionDollar s).2.2 = "") ∧
      ¬((pyPartitionDollar s).2.2 ≠ "" ∧ filterNames (pyPartitionDollar s).2.2 = []) ∧
      (∀ t ∈ filterNames (pyPartitionDollar s).2.2, pyIsIdentifier t = true)) ∧
    FormatError.message FormatError.requiresAllowedNames ≠
      FormatError.message FormatError.noValidNames ∧
    (∀ l, FormatError.message (FormatError.invalidIdentifiers l) ≠
      FormatError.message FormatError.requiresAllowedNames) ∧
    (∀ l, FormatError.message (FormatError.invalidIdentifiers l) ≠
      FormatError.message FormatError.noValidNames) := by
  refine ⟨formatOp_error1_iff b s, formatOp_error2_iff b s, ?_, formatOp_ok_iff b s,
    by decide, ?_, ?_⟩
  · intro l
    rw [formatOp_error3_iff b s l, invalid_filter_ne_nil_iff]
  · intro l hl
    have hh := invalid_message_head l
    rw [hl] at hh
    exact absurd hh (by decide)
  · intro l hl
    have hh := invalid_message_head l
    rw [hl] at hh
    exact absurd hh (by decide)

theorem C3_parse_error_cases_witness :
    ProtectedStringBuilder.formatOp ⟨[]⟩ "$1bad" =
      Except.error (FormatError.invalidIdentifiers ["1bad"]) :=
  ((C3_parse_error_cases ⟨[]⟩ "$1bad").2.2.1 ["1bad"]).mpr (by decide)

/-- C4: a successfully parsed format-spec renders with marker equal to the text
before the dollar when that text is nonempty and no marker otherwise, and with
an allow-policy that is the reject-everything policy when the spec has no
dollar (in which case the whole spec is the marker text and nothing follows the
dollar) and otherwise the case-sensitive membership test against the trimmed,
empty-token-discarding comma split of the text after the dollar. -/
theorem C4_parse_success (b : ProtectedStringBuilder) (s r : String)
    (h : b.formatOp s = Except.ok r) :
    r = b.render
      (if (pyPartitionDollar s).1 = "" then Option.none else some (pyPartitionDollar s).1)
      (if (pyPartitionDollar s).2.2 ≠ "" then
        Allowed.pred (fun seg => decide (seg.name ∈ filterNames (pyPartitionDollar s).2.2))
      else Allowed.pred (fun _ => false)) ∧
    ((pyPartitionDollar s).2.1 = "" →
      (pyPartitionDollar s).1 = s ∧ (pyPartitionDollar s).2.2 = "") :=
  ⟨formatOp_ok_value b s r h, pyPartitionDollar_no_sep s⟩

theorem C4_parse_success_witness :
    "FOO***other" =
      (ProtectedStringBuilder.mk [StrPart.seg ⟨"FOO", "foo", false⟩,
          StrPart.seg ⟨"BAR", "bar", false⟩, StrPart.plain "other"]).render
        (if (pyPartitionDollar "***$foo").1 = "" then Option.none
         else some (pyPartitionDollar "***$foo").1)
        (if (pyPartitionDollar "***$foo").2.2 ≠ "" then
          Allowed.pred (fun seg => decide (seg.name ∈ filterNames (pyPartitionDollar "***$foo").2.2))
        else Allowed.pred (fun _ => false)) ∧
    filterNames " foo , bar ,  " = filterNames "foo,bar" :=
  ⟨(C4_parse_success
      ⟨[StrPart.seg ⟨"FOO", "foo", false⟩, StrPart.seg ⟨"BAR", "bar", false⟩,
        StrPart.plain "other"]⟩ "***$foo" "FOO***other" rfl).1, rfl⟩

/-- C9: formatting with a spec whose marker portion is empty passes no marker
to render (the empty marker is normalized to the absent marker), so every
protected segment the policy rejects is resolved to its default placeholder,
never to the empty string. -/
theorem C9_empty_marker_normalized (b : ProtectedStringBuilder) (s r : String)
    (hm : (pyPartitionDollar s).1 = "") (h : b.formatOp s = Except.ok r) :
    ∃ f : ProtectedString → Bool,
      r = b.render Option.none (Allowed.pred f) ∧
      ∀ p : ProtectedString, f p = false →
        redactPart p Option.none (Allowed.pred f) = p.reprS := by
  have hr := formatOp_ok_value b s r h
  rw [if_pos hm] at hr
  by_cases ha : (pyPartitionDollar s).2.2 ≠ ""
  · rw [if_pos ha] at hr
    refine ⟨_, hr, ?_⟩
    intro p hp
    simp [redactPart, hp]
  · rw [if_neg ha] at hr
    refine ⟨_, hr, ?_⟩
    intro p hp
    simp [redactPart, hp]

theorem C9_empty_marker_witness :
    ∃ f : ProtectedString → Bool,
      "<Redacted Nm>" =
        (ProtectedStringBuilder.mk [StrPart.seg ⟨"v", "nm", false⟩]).render Option.none
          (Allowed.pred f) ∧
      ∀ p : ProtectedString, f p = false →
        redactPart p Option.none (Allowed.pred f) = p.reprS :=
  C9_empty_marker_normalized ⟨[StrPart.seg ⟨"v", "nm", false⟩]⟩ "" "<Redacted Nm>" rfl rfl
